import Mathlib

/-!
Verification of the per-sample data-loading and metadata-fusion pipeline of
`nerfstudio/data/datasets/generalized_dataset.py` (class `GeneralizedDataset`).

Tensors are shallowly embedded over `ℚ`:
* a color / mask image is a `Tensor3` — explicit height/width/channels plus a
  rows-of-pixels value (`List (List (List ℚ))`);
* a depth image (`[H, W, 1]`) is flattened to a `List ℚ` of its pixel values;
* `torch.linalg.lstsq` with a two-column design matrix is embedded as the exact
  least-squares solution over ℚ (normal equations in the full-rank case, the
  minimum-norm minimizer in the rank-deficient case, matching LAPACK `gelsy`,
  the CPU driver used by `torch.linalg.lstsq`); theorems `lstsq2_minimizes` and
  `lstsq2_minNorm` below justify this embedding;
* Python `assert` failures and solver failures become `Except` errors.
-/

namespace GenData

/-- A rank-3 tensor `[height, width, channels]`: shape metadata plus the value
as rows of pixels, each pixel a list of channel values. -/
structure Tensor3 (α : Type) where
  height : Nat
  width : Nat
  channels : Nat
  val : List (List (List α))
deriving DecidableEq

/-- `BasicImages` from `nerfstudio/utils/images.py`: ownership wrapper holding a
sequence of tensors of possibly differing shapes. -/
structure BasicImages (α : Type) where
  images : List α
deriving DecidableEq

/-- Well-formedness: the value lists agree with the recorded shape. -/
def Tensor3.wf {α : Type} (t : Tensor3 α) : Prop :=
  t.val.length = t.height ∧
  (∀ row ∈ t.val, row.length = t.width) ∧
  (∀ row ∈ t.val, ∀ px ∈ row, px.length = t.channels)

/-- Error taxonomy.  `shapeMismatch`, `emptyMask` and `missingKwargs` model the
three `assert` statements of `get_data`; `lstsqEmptySystem` models the raw
numerical failure of the unguarded least-squares solver on an empty design
matrix (spec §4.5: "the original behavior is unguarded and would throw from the
solver"); `calibrationError` is the explicit catchable error demanded by the
spec's taxonomy (§7) — the source never produces it. -/
inductive DataError where
  | shapeMismatch
  | emptyMask
  | missingKwargs
  | lstsqEmptySystem
  | calibrationError
deriving DecidableEq

deriving instance DecidableEq for Except

/-! ### The image step of `get_data` (lines 91–95)

`data["is_gray"] = BasicImages([torch.ones_like(image[..., :1]) * image.shape[-1] == 1])`
(by Python precedence: the tensor of channel counts, of shape `[H, W, 1]`,
compared elementwise with 1), then
`if image.shape[-1] == 1: image = image.tile(1, 1, 3)`. -/

/-- The boolean tensor `torch.ones_like(image[..., :1]) * image.shape[-1] == 1`:
shape `[H, W, 1]`, every entry `channels == 1`. -/
def isGrayOf (t : Tensor3 ℚ) : Tensor3 Bool :=
  ⟨t.height, t.width, 1, t.val.map (fun row => row.map (fun _ => [decide (t.channels = 1)]))⟩

/-- `image.tile(1, 1, 3)`: repeat the last dimension three times. -/
def tile113 {α : Type} (t : Tensor3 α) : Tensor3 α :=
  ⟨t.height, t.width, t.channels * 3, t.val.map (fun row => row.map (fun px => px ++ px ++ px))⟩

/-- Lines 91–95 of `get_data`: the `is_gray` tensor (computed from the image
before any tiling) and the possibly-tiled image. -/
def imageStep (t : Tensor3 ℚ) : Tensor3 Bool × Tensor3 ℚ :=
  (isGrayOf t, if t.channels = 1 then tile113 t else t)

/-! ### Least squares (`torch.linalg.lstsq` with design matrix `[d, 1]`)

The calibration solves `D @ [s, b]^T ≈ target` with `D = [[d_i, 1]]` over the
valid pixels.  `ps` is the list of `(d_i, t_i)` pairs. -/

/-- Sum of the first components (`Σ d_i`). -/
def sD (ps : List (ℚ × ℚ)) : ℚ := (ps.map (fun p => p.1)).sum

/-- Sum of the second components (`Σ t_i`). -/
def sT (ps : List (ℚ × ℚ)) : ℚ := (ps.map (fun p => p.2)).sum

/-- `Σ d_i²`. -/
def sDD (ps : List (ℚ × ℚ)) : ℚ := (ps.map (fun p => p.1 * p.1)).sum

/-- `Σ d_i * t_i`. -/
def sDT (ps : List (ℚ × ℚ)) : ℚ := (ps.map (fun p => p.1 * p.2)).sum

/-- The number of rows, as a rational. -/
def nn (ps : List (ℚ × ℚ)) : ℚ := (ps.length : ℚ)

/-- Determinant of the 2×2 normal-equation matrix (`n Σd² − (Σd)²`). -/
def disc (ps : List (ℚ × ℚ)) : ℚ := nn ps * sDD ps - sD ps * sD ps

/-- The sum of squared residuals `Σ (s d_i + b − t_i)²` minimized by the
least-squares solve. -/
def resid (ps : List (ℚ × ℚ)) (s b : ℚ) : ℚ :=
  (ps.map (fun p => (s * p.1 + b - p.2) ^ 2)).sum

/-- The least-squares solution `(s, b)` for the design matrix with rows
`[d_i, 1]` and target `t_i`.  Full-rank case: the unique normal-equation
solution.  Rank-deficient non-empty case (all `d_i` equal): the minimum-norm
minimizer, which is what LAPACK `gelsy` — the CPU driver of
`torch.linalg.lstsq` — returns. -/
def lstsq2 (ps : List (ℚ × ℚ)) : ℚ × ℚ :=
  if disc ps ≠ 0 then
    ((nn ps * sDT ps - sD ps * sT ps) / disc ps,
     (sDD ps * sT ps - sD ps * sDT ps) / disc ps)
  else if ps.length ≠ 0 then
    let dbar := sD ps / nn ps
    let tbar := sT ps / nn ps
    ((tbar * dbar) / (dbar * dbar + 1), tbar / (dbar * dbar + 1))
  else (0, 0)

/-- `torch.linalg.lstsq` as called by the source: on an empty design matrix the
unguarded solve fails (spec §4.5: the original "would throw from the solver");
otherwise it returns the (minimum-norm) least-squares solution. -/
def lstsq2E (ps : List (ℚ × ℚ)) : Except DataError (ℚ × ℚ) :=
  if ps.isEmpty then .error .lstsqEmptySystem else .ok (lstsq2 ps)

/-! ### Depth calibration (`get_metadata`, lines 145–152)

`mask = (sensor_image > 0.0)`; `D = cat((depth_image[mask], ones), dim=1)`;
`Sb = torch.linalg.lstsq(D, sensor_image[mask]).solution`;
`depth_image * Sb[0] + Sb[1]`. -/

/-- The valid `(depth, sensor)` pairs: pixels where the sensor depth is
strictly positive. -/
def calibValid (depth sensor : List ℚ) : List (ℚ × ℚ) :=
  (depth.zip sensor).filter (fun p => decide (0 < p.2))

/-- The calibrated depth: solve for scale/offset over the valid pixels, then
apply `depth * s + b` to every pixel. -/
def calibrateDepth (depth sensor : List ℚ) : Except DataError (List ℚ) :=
  match lstsq2E (calibValid depth sensor) with
  | .error e => .error e
  | .ok sb => .ok (depth.map (fun d => d * sb.1 + sb.2))

/-! ### `get_metadata` (lines 117–163) -/

/-- Modelled from the spec: `get_depth_image_from_path`
(`nerfstudio/data/utils/data_utils.py`, not under `src/`) decodes a depth
raster, resizes it to the image's height/width, and "multiplies every value by
`scale_factor`" (§4.4).  The decoded-and-resized raw values are supplied as a
`List ℚ`; this function applies the scale factor. -/
def getDepthImageFromPath (raw : List ℚ) (scale_factor : ℚ) : List ℚ :=
  raw.map (fun v => v * scale_factor)

/-- Inputs of `get_metadata`: the optional per-index raw (decoded, resized,
unscaled) depth / sensor-depth rasters, the optional per-index loaded normal
image (`get_normal_image_from_path` is not under `src/`; per spec §4.4 it
decodes, resizes and rotates by the rotation part of the camera pose — its
output is abstracted as a flattened `List ℚ` per index), and the two scalars.
An `Option` is `some` exactly when the corresponding `*_filenames` key is
present in `self.metadata`. -/
structure MetaConfig where
  depthRaw : Option (Nat → List ℚ)
  sensorRaw : Option (Nat → List ℚ)
  normalRaw : Option (Nat → List ℚ)
  depth_unit_scale_factor : ℚ
  dataparser_scale : ℚ

/-- The metadata dictionary returned by `get_metadata`: each key present iff
the code stored it. -/
structure MetaOut where
  depth_image : Option (BasicImages (List ℚ))
  sensor_depth : Option (BasicImages (List ℚ))
  normal_image : Option (BasicImages (List ℚ))
deriving DecidableEq

/-- `get_metadata`: load depth with scale `depth_unit_scale_factor *
dataparser_scale`, load sensor depth with scale `depth_unit_scale_factor`
alone, run calibration when both are present (overwriting `depth_image`), and
load the normal image when present.  Keys absent from `self.metadata` produce
absent output fields. -/
def getMetadata (cfg : MetaConfig) (image_idx : Nat) : Except DataError MetaOut :=
  let depthLoaded := cfg.depthRaw.map (fun raw =>
    getDepthImageFromPath (raw image_idx) (cfg.depth_unit_scale_factor * cfg.dataparser_scale))
  let sensorLoaded := cfg.sensorRaw.map (fun raw =>
    getDepthImageFromPath (raw image_idx) cfg.depth_unit_scale_factor)
  let normalPart := cfg.normalRaw.map (fun raw => BasicImages.mk [raw image_idx])
  match depthLoaded, sensorLoaded with
  | some d, some s =>
    match calibrateDepth d s with
    | .error e => .error e
    | .ok corrected => .ok ⟨some ⟨[corrected]⟩, some ⟨[s]⟩, normalPart⟩
  | some d, none => .ok ⟨some ⟨[d]⟩, none, normalPart⟩
  | none, some s => .ok ⟨none, some ⟨[s]⟩, normalPart⟩
  | none, none => .ok ⟨none, none, normalPart⟩

/-! ### Mask extraction (`get_data`, lines 101–112) -/

/-- Non-zero coordinates of one row, carrying the row index `i` and the column
index `j` of the first pixel of `row`. -/
def rowNonzeroAux (i j : Nat) : List (List ℚ) → List (Nat × Nat)
  | [] => []
  | px :: rest =>
    if px.headD 0 ≠ 0 then (i, j) :: rowNonzeroAux i (j + 1) rest
    else rowNonzeroAux i (j + 1) rest

/-- Non-zero coordinates of the rows starting at row index `i`. -/
def nonzeroAux (i : Nat) : List (List (List ℚ)) → List (Nat × Nat)
  | [] => []
  | row :: rest => rowNonzeroAux i 0 row ++ nonzeroAux (i + 1) rest

/-- `torch.nonzero(mask_image[..., 0], as_tuple=False)`: the row-major ordered
list of `(i, j)` coordinates whose channel-0 value is non-zero. -/
def nonzeroCoords (m : Tensor3 ℚ) : List (Nat × Nat) :=
  nonzeroAux 0 m.val

/-- The number of pixels of `m` whose channel-0 value is non-zero. -/
def nonzeroCount (m : Tensor3 ℚ) : Nat :=
  (m.val.map (fun row => row.countP (fun px => decide (px.headD 0 ≠ 0)))).sum

/-- The mask branch of `get_data`: assert the mask's height/width equal the
image's, compute the non-zero coordinates, assert there is at least one. -/
def maskStep (image mask_image : Tensor3 ℚ) : Except DataError (BasicImages (List (Nat × Nat))) :=
  if mask_image.height = image.height ∧ mask_image.width = image.width then
    let nonzero_indices := nonzeroCoords mask_image
    if nonzero_indices.length ≠ 0 then .ok ⟨[nonzero_indices]⟩
    else .error .emptyMask
  else .error .shapeMismatch

/-! ### The image cache (`get_data`, lines 84–88) -/

/-- The cache branch: `if image_idx in self.image_cache: image =
self.image_cache[image_idx] else: image = self.get_image(image_idx);
self.image_cache[image_idx] = image`.  Returns the image, the updated cache and
the number of `get_image` decodes performed (0 or 1). -/
def getImageCached (g : Nat → Tensor3 ℚ) (cache : List (Nat × Tensor3 ℚ)) (idx : Nat) :
    Tensor3 ℚ × List (Nat × Tensor3 ℚ) × Nat :=
  match cache.lookup idx with
  | some img => (img, cache, 0)
  | none => (g idx, (idx, g idx) :: cache, 1)

/-- A cache is coherent when every stored entry is the decode of its index. -/
def Coherent (g : Nat → Tensor3 ℚ) (cache : List (Nat × Tensor3 ℚ)) : Prop :=
  ∀ i img, cache.lookup i = some img → img = g i

/-! ### Auxiliary callbacks (`get_data`, lines 96–100) -/

/-- A `self._dataparser_outputs.metadata` entry as seen by the callback loop:
either not a dict-with-"func" (skipped), or a dict with a "func" key whose
"kwargs" key is present (`some kw`) or missing (`none`).  `κ` is the type of
the kwargs mapping, `ε` the type of the values a callback contributes. -/
inductive MetaEntry (κ ε : Type) where
  | plain
  | cb (kw : Option κ) (f : Nat → κ → List (String × ε))

/-- Whether an entry passes the `assert "kwargs" in data_func_dict` check. -/
def entryGoodB {κ ε : Type} : MetaEntry κ ε → Bool
  | .cb none _ => false
  | _ => true

/-- The keys of the callback entries that carry both "func" and "kwargs". -/
def invokedKeys {κ ε : Type} (entries : List (String × MetaEntry κ ε)) : List String :=
  entries.filterMap (fun e =>
    match e.2 with
    | .cb (some _) _ => some e.1
    | _ => none)

/-- The callback loop: iterate the metadata entries in order; skip non-callback
entries; on a callback whose "kwargs" is missing, fail (the `assert`) without
invoking it and without processing later entries; otherwise invoke
`func(image_idx, **kwargs)` and collect its fields.  Returns the trace of
invoked callback keys together with the collected fields (or the failure). -/
def processEntries {κ ε : Type} :
    List (String × MetaEntry κ ε) → Nat → List String × Except DataError (List (String × ε))
  | [], _ => ([], .ok [])
  | (_, .plain) :: rest, idx => processEntries rest idx
  | (_, .cb none _) :: _, _ => ([], .error .missingKwargs)
  | (key, .cb (some kw) f) :: rest, idx =>
    let tr := processEntries rest idx
    (key :: tr.1,
     match tr.2 with
     | .error e => .error e
     | .ok fields => .ok (f idx kw ++ fields))

/-! ### `get_data` (lines 73–115) -/

/-- The sample dictionary returned by `get_data`, as a record: the mandatory
fields `image_idx`, `is_gray`, `image`; the caller-defined fields contributed
by callbacks; and the optional `mask` / metadata fields. -/
structure Sample (ε : Type) where
  image_idx : Nat
  is_gray : BasicImages (Tensor3 Bool)
  image : BasicImages (Tensor3 ℚ)
  extra : List (String × ε)
  mask : Option (BasicImages (List (Nat × Nat)))
  depth_image : Option (BasicImages (List ℚ))
  sensor_depth : Option (BasicImages (List ℚ))
  normal_image : Option (BasicImages (List ℚ))

/-- The dataset's configuration: `get_image` (inherited from `InputDataset`,
not under `src/` — abstracted as a pure decode per index), the metadata entries
seen by the callback loop, the loaded mask image per index when
`self.has_masks` (`get_image_mask_tensor_from_path` is not under `src/`; its
output is supplied directly), and the `get_metadata` inputs. -/
structure DatasetCfg (κ ε : Type) where
  getImage : Nat → Tensor3 ℚ
  metaEntries : List (String × MetaEntry κ ε)
  maskImages : Option (Nat → Tensor3 ℚ)
  meta : MetaConfig

/-- Everything `get_data` does after the image has been resolved from the
cache: `is_gray`, tiling, the callback loop, the mask branch, `get_metadata`.
Pure in the index and the decoded image. -/
def assembleSample {κ ε : Type} (cfg : DatasetCfg κ ε) (image_idx : Nat) (image0 : Tensor3 ℚ) :
    Except DataError (Sample ε) :=
  let is_gray := BasicImages.mk [isGrayOf image0]
  let image := if image0.channels = 1 then tile113 image0 else image0
  match (processEntries cfg.metaEntries image_idx).2 with
  | .error e => .error e
  | .ok extra =>
    let maskRes : Except DataError (Option (BasicImages (List (Nat × Nat)))) :=
      match cfg.maskImages with
      | none => .ok none
      | some mi =>
        match maskStep image (mi image_idx) with
        | .error e => .error e
        | .ok b => .ok (some b)
    match maskRes with
    | .error e => .error e
    | .ok maskField =>
      match getMetadata cfg.meta image_idx with
      | .error e => .error e
      | .ok m =>
        .ok ⟨image_idx, is_gray, ⟨[image]⟩, extra, maskField,
             m.depth_image, m.sensor_depth, m.normal_image⟩

/-- `get_data(image_idx)`: resolve the image through the cache, then assemble
the sample.  Returns the sample, the updated cache and the decode count. -/
def getData {κ ε : Type} (cfg : DatasetCfg κ ε) (cache : List (Nat × Tensor3 ℚ)) (image_idx : Nat) :
    Except DataError (Sample ε × List (Nat × Tensor3 ℚ) × Nat) :=
  let r := getImageCached cfg.getImage cache image_idx
  match assembleSample cfg image_idx r.1 with
  | .error e => .error e
  | .ok s => .ok (s, r.2.1, r.2.2)

/-! ### The size probe (`__init__`, lines 54–69) -/

/-- The body of the size-scan loop.  The first argument is the recorded
`(h, w)` (`none` while `h is None`).  Each visited file counts as one opened
image; on the first mismatch the flag becomes false and the loop breaks. -/
def probeAux : Option (Nat × Nat) → List (Nat × Nat) → Bool × Nat
  | _, [] => (true, 0)
  | none, s :: rest =>
    let r := probeAux (some s) rest
    (r.1, r.2 + 1)
  | some hw, s :: rest =>
    if s ≠ hw then (false, 1)
    else
      let r := probeAux (some hw) rest
      (r.1, r.2 + 1)

/-- The constructor's size scan over the (height, width) of every image file:
returns `all_hw_same` and the number of images opened. -/
def sizeProbe (l : List (Nat × Nat)) : Bool × Nat :=
  probeAux none l

/-! ### Concrete fixtures used by the witnesses -/

/-- A 1×2 single-channel (grayscale) image. -/
def imgGray : Tensor3 ℚ := ⟨1, 2, 1, [[[3], [4]]]⟩

/-- A 1×1 three-channel (color) image. -/
def imgColor : Tensor3 ℚ := ⟨1, 1, 3, [[[1, 0, 0]]]⟩

/-- A 1×1 mask with one non-zero pixel. -/
def maskImg : Tensor3 ℚ := ⟨1, 1, 1, [[[5]]]⟩

/-- A metadata configuration with no auxiliary inputs. -/
def metaNone : MetaConfig := ⟨none, none, none, 1, 1⟩

/-- A minimal dataset: one color image, no callbacks, no masks, no metadata. -/
def cfg0 : DatasetCfg Unit Unit := ⟨fun _ => imgColor, [], none, metaNone⟩

/-- A dataset with a mask. -/
def cfgMask : DatasetCfg Unit Unit := ⟨fun _ => imgColor, [], some (fun _ => maskImg), metaNone⟩

/-- Depth and sensor rasters present, with the sensor an exact affine image of
the depth (`sensor = 2 * depth + 1/2`) on two valid pixels of distinct depth. -/
def metaBoth : MetaConfig :=
  ⟨some (fun _ => [1, 2]), some (fun _ => [5 / 2, 9 / 2]), some (fun _ => [0, 0, 1]), 1, 1⟩

/-- Depth and sensor rasters present, with no strictly positive sensor pixel. -/
def metaNoValid : MetaConfig :=
  ⟨some (fun _ => [1, 2]), some (fun _ => [0, -1]), none, 1, 1⟩

/-- Only a depth raster, with distinguishable unit and dataparser scales. -/
def metaDepthOnly : MetaConfig := ⟨some (fun _ => [3]), none, none, 1 / 2, 1 / 4⟩

/-- Only a sensor raster, with distinguishable unit and dataparser scales. -/
def metaSensorOnly : MetaConfig := ⟨none, some (fun _ => [3]), none, 1 / 2, 1 / 4⟩

/-- Metadata entries whose second callback lacks "kwargs". -/
def entriesBad : List (String × MetaEntry Unit Unit) :=
  [("good", .cb (some ()) (fun _ _ => [("x", ())])),
   ("bad", .cb none (fun _ _ => []))]

/-- A dataset whose metadata carries `entriesBad`. -/
def cfgBadEntries : DatasetCfg Unit Unit := ⟨fun _ => imgColor, entriesBad, none, metaNone⟩

/-! ## Least-squares facts

These theorems justify the embedding of `torch.linalg.lstsq`: `lstsq2` returns
a minimizer of the sum of squared residuals, and among minimizers it has
minimum norm (the behavior of the `gelsy` driver). -/

theorem sD_cons (p : ℚ × ℚ) (ps : List (ℚ × ℚ)) : sD (p :: ps) = p.1 + sD ps := by
  simp [sD]

theorem sT_cons (p : ℚ × ℚ) (ps : List (ℚ × ℚ)) : sT (p :: ps) = p.2 + sT ps := by
  simp [sT]

theorem sDD_cons (p : ℚ × ℚ) (ps : List (ℚ × ℚ)) : sDD (p :: ps) = p.1 * p.1 + sDD ps := by
  simp [sDD]

theorem sDT_cons (p : ℚ × ℚ) (ps : List (ℚ × ℚ)) : sDT (p :: ps) = p.1 * p.2 + sDT ps := by
  simp [sDT]

theorem nn_cons (p : ℚ × ℚ) (ps : List (ℚ × ℚ)) : nn (p :: ps) = nn ps + 1 := by
  simp [nn]

theorem resid_cons (p : ℚ × ℚ) (ps : List (ℚ × ℚ)) (s b : ℚ) :
    resid (p :: ps) s b = (s * p.1 + b - p.2) ^ 2 + resid ps s b := by
  simp [resid]

theorem nn_pos (ps : List (ℚ × ℚ)) (h : ps ≠ []) : 0 < nn ps := by
  have hl : 0 < ps.length := List.length_pos.mpr h
  unfold nn
  exact_mod_cast hl

/-- Quadratic expansion of the residual sum around another candidate. -/
theorem resid_diff (ps : List (ℚ × ℚ)) (s b s' b' : ℚ) :
    resid ps s b = resid ps s' b'
      + 2 * (s - s') * (s' * sDD ps + b' * sD ps - sDT ps)
      + 2 * (b - b') * (s' * sD ps + b' * nn ps - sT ps)
      + ((s - s') ^ 2 * sDD ps + 2 * (s - s') * (b - b') * sD ps + (b - b') ^ 2 * nn ps) := by
  induction ps with
  | nil => simp [resid, sD, sT, sDD, sDT, nn]
  | cons p ps ih =>
    rw [resid_cons, resid_cons, sD_cons, sT_cons, sDD_cons, sDT_cons, nn_cons]
    linear_combination ih

/-- The variance-style expansion `Σ (d_i − μ)² = Σd² − 2μΣd + nμ²`. -/
theorem varSum_eq (ps : List (ℚ × ℚ)) (μ : ℚ) :
    (ps.map (fun p => (p.1 - μ) ^ 2)).sum = sDD ps - 2 * μ * sD ps + nn ps * μ ^ 2 := by
  induction ps with
  | nil => simp [sD, sDD, nn]
  | cons p ps ih =>
    rw [List.map_cons, List.sum_cons, sD_cons, sDD_cons, nn_cons]
    linear_combination ih

theorem varSum_nonneg (ps : List (ℚ × ℚ)) (μ : ℚ) :
    0 ≤ (ps.map (fun p => (p.1 - μ) ^ 2)).sum := by
  apply List.sum_nonneg
  intro x hx
  obtain ⟨p, _, rfl⟩ := List.mem_map.mp hx
  positivity

/-- `nn * Σ (d_i − μ)² = disc` for `μ = Σd / n` (non-empty list). -/
theorem nn_mul_varSum (ps : List (ℚ × ℚ)) (h : ps ≠ []) :
    nn ps * (ps.map (fun p => (p.1 - sD ps / nn ps) ^ 2)).sum = disc ps := by
  have hn : nn ps ≠ 0 := (nn_pos ps h).ne'
  rw [varSum_eq, disc]
  field_simp
  ring

theorem disc_nonneg (ps : List (ℚ × ℚ)) : 0 ≤ disc ps := by
  rcases eq_or_ne ps [] with rfl | h
  · simp [disc, nn, sD, sDD]
  · have hn := nn_pos ps h
    have hv := varSum_nonneg ps (sD ps / nn ps)
    have key := nn_mul_varSum ps h
    nlinarith

/-- Each term of the variance sum is non-negative. -/
theorem mapSq_nonneg (ps : List (ℚ × ℚ)) (μ : ℚ) :
    ∀ x ∈ ps.map (fun r => (r.1 - μ) ^ 2), 0 ≤ x := by
  intro x hx
  obtain ⟨r, _, rfl⟩ := List.mem_map.mp hx
  positivity

/-- Two valid pixels with distinct depths make the design matrix full rank. -/
theorem disc_pos_of_two (ps : List (ℚ × ℚ)) (p q : ℚ × ℚ)
    (hp : p ∈ ps) (hq : q ∈ ps) (hne : p.1 ≠ q.1) : 0 < disc ps := by
  have hps : ps ≠ [] := by rintro rfl; simp at hp
  have hn := nn_pos ps hps
  have hx : p.1 ≠ sD ps / nn ps ∨ q.1 ≠ sD ps / nn ps := by
    by_contra hcon
    push_neg at hcon
    exact hne (hcon.1.trans hcon.2.symm)
  have hvpos : 0 < (ps.map (fun r => (r.1 - sD ps / nn ps) ^ 2)).sum := by
    rcases hx with hx | hx
    · have hmem : (p.1 - sD ps / nn ps) ^ 2 ∈ ps.map (fun r => (r.1 - sD ps / nn ps) ^ 2) :=
        List.mem_map_of_mem _ hp
      have hsub : p.1 - sD ps / nn ps ≠ 0 := sub_ne_zero.mpr hx
      have hterm : 0 < (p.1 - sD ps / nn ps) ^ 2 := by positivity
      have hle := List.single_le_sum (mapSq_nonneg ps (sD ps / nn ps)) _ hmem
      linarith
    · have hmem : (q.1 - sD ps / nn ps) ^ 2 ∈ ps.map (fun r => (r.1 - sD ps / nn ps) ^ 2) :=
        List.mem_map_of_mem _ hq
      have hsub : q.1 - sD ps / nn ps ≠ 0 := sub_ne_zero.mpr hx
      have hterm : 0 < (q.1 - sD ps / nn ps) ^ 2 := by positivity
      have hle := List.single_le_sum (mapSq_nonneg ps (sD ps / nn ps)) _ hmem
      linarith
  have key := nn_mul_varSum ps hps
  nlinarith

/-- Rank deficiency of a non-empty system means every depth equals the mean. -/
theorem firstComp_const (ps : List (ℚ × ℚ)) (h0 : disc ps = 0) (h : ps ≠ []) :
    ∀ p ∈ ps, p.1 = sD ps / nn ps := by
  have hn := nn_pos ps h
  have key := nn_mul_varSum ps h
  have hv : (ps.map (fun p => (p.1 - sD ps / nn ps) ^ 2)).sum = 0 := by
    rcases mul_eq_zero.mp (key.trans h0) with hc | hc
    · exact absurd hc hn.ne'
    · exact hc
  intro p hp
  have hterm : (p.1 - sD ps / nn ps) ^ 2 = 0 := by
    have hmem : (p.1 - sD ps / nn ps) ^ 2 ∈ ps.map (fun r => (r.1 - sD ps / nn ps) ^ 2) :=
      List.mem_map_of_mem _ hp
    have hle := List.single_le_sum (mapSq_nonneg ps (sD ps / nn ps)) _ hmem
    have hge : 0 ≤ (p.1 - sD ps / nn ps) ^ 2 := by positivity
    linarith [hv ▸ hle]
  have hz := sq_eq_zero_iff.mp hterm
  linarith [sub_eq_zero.mp hz]

theorem sD_of_const (ps : List (ℚ × ℚ)) (c : ℚ) (h : ∀ p ∈ ps, p.1 = c) :
    sD ps = nn ps * c := by
  induction ps with
  | nil => simp [sD, nn]
  | cons p ps ih =>
    rw [sD_cons, nn_cons, h p (List.mem_cons_self _ _),
      ih (fun r hr => h r (List.mem_cons_of_mem _ hr))]
    ring

theorem sDD_of_const (ps : List (ℚ × ℚ)) (c : ℚ) (h : ∀ p ∈ ps, p.1 = c) :
    sDD ps = nn ps * c ^ 2 := by
  induction ps with
  | nil => simp [sDD, nn]
  | cons p ps ih =>
    rw [sDD_cons, nn_cons, h p (List.mem_cons_self _ _),
      ih (fun r hr => h r (List.mem_cons_of_mem _ hr))]
    ring

theorem sDT_of_const (ps : List (ℚ × ℚ)) (c : ℚ) (h : ∀ p ∈ ps, p.1 = c) :
    sDT ps = c * sT ps := by
  induction ps with
  | nil => simp [sDT, sT]
  | cons p ps ih =>
    rw [sDT_cons, sT_cons, h p (List.mem_cons_self _ _),
      ih (fun r hr => h r (List.mem_cons_of_mem _ hr))]
    ring

/-- The closed form of `lstsq2` in the full-rank case. -/
theorem lstsq2_fullRank (ps : List (ℚ × ℚ)) (hd : disc ps ≠ 0) :
    lstsq2 ps = ((nn ps * sDT ps - sD ps * sT ps) / disc ps,
      (sDD ps * sT ps - sD ps * sDT ps) / disc ps) := by
  rw [lstsq2, if_pos hd]

/-- The closed form of `lstsq2` in the rank-deficient non-empty case. -/
theorem lstsq2_degenerate (ps : List (ℚ × ℚ)) (hd : disc ps = 0) (h : ps ≠ []) :
    lstsq2 ps = ((sT ps / nn ps * (sD ps / nn ps)) / (sD ps / nn ps * (sD ps / nn ps) + 1),
      (sT ps / nn ps) / (sD ps / nn ps * (sD ps / nn ps) + 1)) := by
  rw [lstsq2, if_neg (by simpa using hd), if_pos (by simpa [List.length_eq_zero] using h)]

/-- `lstsq2` satisfies the first normal equation. -/
theorem lstsq2_normal1 (ps : List (ℚ × ℚ)) (h : ps ≠ []) :
    (lstsq2 ps).1 * sDD ps + (lstsq2 ps).2 * sD ps - sDT ps = 0 := by
  rcases eq_or_ne (disc ps) 0 with hd | hd
  · have hc := firstComp_const ps hd h
    have hn : nn ps ≠ 0 := (nn_pos ps h).ne'
    have hsD := sD_of_const ps _ hc
    have hsDD := sDD_of_const ps _ hc
    have hsDT := sDT_of_const ps _ hc
    rw [lstsq2_degenerate ps hd h]
    simp only
    set c := sD ps / nn ps with hcdef
    have hden : c * c + 1 ≠ 0 := by nlinarith [mul_self_nonneg c]
    rw [hsDD, hsDT, hsD]
    field_simp [hn, hden]
    ring
  · rw [lstsq2_fullRank ps hd]
    simp only
    rw [div_mul_eq_mul_div, div_mul_eq_mul_div, div_add_div_same, sub_eq_zero,
      div_eq_iff hd, disc]
    ring

/-- `lstsq2` satisfies the second normal equation. -/
theorem lstsq2_normal2 (ps : List (ℚ × ℚ)) (h : ps ≠ []) :
    (lstsq2 ps).1 * sD ps + (lstsq2 ps).2 * nn ps - sT ps = 0 := by
  rcases eq_or_ne (disc ps) 0 with hd | hd
  · have hc := firstComp_const ps hd h
    have hn : nn ps ≠ 0 := (nn_pos ps h).ne'
    have hsD := sD_of_const ps _ hc
    rw [lstsq2_degenerate ps hd h]
    simp only
    set c := sD ps / nn ps with hcdef
    have hden : c * c + 1 ≠ 0 := by nlinarith [mul_self_nonneg c]
    rw [hsD]
    field_simp [hn, hden]
    ring
  · rw [lstsq2_fullRank ps hd]
    simp only
    rw [div_mul_eq_mul_div, div_mul_eq_mul_div, div_add_div_same, sub_eq_zero,
      div_eq_iff hd, disc]
    ring

/-- The second-order term of `resid_diff` is non-negative (via Cauchy–Schwarz,
`0 ≤ disc`). -/
theorem quadForm_nonneg (ps : List (ℚ × ℚ)) (h : ps ≠ []) (u v : ℚ) :
    0 ≤ u ^ 2 * sDD ps + 2 * u * v * sD ps + v ^ 2 * nn ps := by
  have hn := nn_pos ps h
  have hdisc : 0 ≤ nn ps * sDD ps - sD ps * sD ps := by
    have := disc_nonneg ps
    simpa [disc] using this
  have key : nn ps * (u ^ 2 * sDD ps + 2 * u * v * sD ps + v ^ 2 * nn ps)
      = (u * sD ps + v * nn ps) ^ 2 + u ^ 2 * (nn ps * sDD ps - sD ps * sD ps) := by
    ring
  nlinarith [sq_nonneg (u * sD ps + v * nn ps),
    mul_nonneg (sq_nonneg u) hdisc, key, hn]

/-- `lstsq2` minimizes the sum of squared residuals (both rank cases). -/
theorem lstsq2_minimizes (ps : List (ℚ × ℚ)) (h : ps ≠ []) (s b : ℚ) :
    resid ps (lstsq2 ps).1 (lstsq2 ps).2 ≤ resid ps s b := by
  have h1 := lstsq2_normal1 ps h
  have h2 := lstsq2_normal2 ps h
  have hd := resid_diff ps s b (lstsq2 ps).1 (lstsq2 ps).2
  rw [h1, h2] at hd
  have hQ := quadForm_nonneg ps h (s - (lstsq2 ps).1) (b - (lstsq2 ps).2)
  linarith [hd, hQ]

/-- Among all minimizers of the residual sum, `lstsq2` has minimum norm (the
defining property of the `gelsy` minimum-norm solution). -/
theorem lstsq2_minNorm (ps : List (ℚ × ℚ)) (h : ps ≠ []) (s b : ℚ)
    (hmin : resid ps s b = resid ps (lstsq2 ps).1 (lstsq2 ps).2) :
    (lstsq2 ps).1 ^ 2 + (lstsq2 ps).2 ^ 2 ≤ s ^ 2 + b ^ 2 := by
  have h1 := lstsq2_normal1 ps h
  have h2 := lstsq2_normal2 ps h
  have hdiff := resid_diff ps s b (lstsq2 ps).1 (lstsq2 ps).2
  rw [h1, h2, hmin] at hdiff
  have hQ0 : (s - (lstsq2 ps).1) ^ 2 * sDD ps
      + 2 * (s - (lstsq2 ps).1) * (b - (lstsq2 ps).2) * sD ps
      + (b - (lstsq2 ps).2) ^ 2 * nn ps = 0 := by linarith
  have hn := nn_pos ps h
  rcases eq_or_ne (disc ps) 0 with hd | hd
  · -- rank-deficient: all depths equal `c`; the minimizers form the line
    -- `s c + b = t̄`, and the returned pair has minimum norm on that line.
    have hc := firstComp_const ps hd h
    have hsD := sD_of_const ps _ hc
    have hsDD := sDD_of_const ps _ hc
    rw [lstsq2_degenerate ps hd h] at hQ0 ⊢
    simp only at hQ0 ⊢
    set c := sD ps / nn ps with hcdef
    set tb := sT ps / nn ps with htbdef
    have hden : c * c + 1 ≠ 0 := by nlinarith [mul_self_nonneg c]
    have hdenpos : 0 < c * c + 1 := by nlinarith [mul_self_nonneg c]
    have hline : (s - tb * c / (c * c + 1)) * c + (b - tb / (c * c + 1)) = 0 := by
      have hkey : nn ps * ((s - tb * c / (c * c + 1)) * c + (b - tb / (c * c + 1))) ^ 2
          = (s - tb * c / (c * c + 1)) ^ 2 * (nn ps * c ^ 2)
            + 2 * (s - tb * c / (c * c + 1)) * (b - tb / (c * c + 1)) * (nn ps * c)
            + (b - tb / (c * c + 1)) ^ 2 * nn ps := by ring
      rw [← hsD, ← hsDD] at hkey
      rw [hQ0] at hkey
      have hz := mul_eq_zero.mp hkey
      rcases hz with hcon | hsq
      · exact absurd hcon hn.ne'
      · have := sq_eq_zero_iff.mp hsq
        linarith
    have hval : tb * c / (c * c + 1) * c + tb / (c * c + 1) = tb := by
      field_simp
      ring
    have hlin : s * c + b = tb := by linear_combination hline + hval
    have hcs : tb ^ 2 ≤ (s ^ 2 + b ^ 2) * (c * c + 1) := by
      rw [← hlin]
      nlinarith [sq_nonneg (s - b * c)]
    have hnorm : (tb * c / (c * c + 1)) ^ 2 + (tb / (c * c + 1)) ^ 2
        = tb ^ 2 / (c * c + 1) := by
      field_simp
      ring
    rw [hnorm, div_le_iff₀ hdenpos]
    linarith [hcs]
  · -- full rank: the minimizer is unique, so `(s, b)` is the returned pair.
    have hdpos : 0 < disc ps := lt_of_le_of_ne (disc_nonneg ps) (Ne.symm hd)
    have hdd : disc ps = nn ps * sDD ps - sD ps * sD ps := rfl
    set u := s - (lstsq2 ps).1 with hudef
    set v := b - (lstsq2 ps).2 with hvdef
    have key : (u * sD ps + v * nn ps) ^ 2 + u ^ 2 * disc ps
        = nn ps * (u ^ 2 * sDD ps + 2 * u * v * sD ps + v ^ 2 * nn ps) := by
      rw [hdd]; ring
    rw [hQ0, mul_zero] at key
    have ha : 0 ≤ (u * sD ps + v * nn ps) ^ 2 := sq_nonneg _
    have hb2 : 0 ≤ u ^ 2 * disc ps := mul_nonneg (sq_nonneg u) hdpos.le
    have hu2 : u ^ 2 * disc ps = 0 := by linarith
    have hu0 : u = 0 := by
      rcases mul_eq_zero.mp hu2 with hsq | hcon
      · exact sq_eq_zero_iff.mp hsq
      · exact absurd hcon hdpos.ne'
    have hvn : (u * sD ps + v * nn ps) ^ 2 = 0 := by linarith
    have hv0 : v = 0 := by
      have := sq_eq_zero_iff.mp hvn
      rw [hu0] at this
      simp at this
      rcases this with hc | hc
      · exact hc
      · exact absurd hc hn.ne'
    have hs : s = (lstsq2 ps).1 := by
      have := hudef
      rw [hu0] at this
      linarith [this.symm]
    have hb : b = (lstsq2 ps).2 := by
      have := hvdef
      rw [hv0] at this
      linarith [this.symm]
    rw [hs, hb]

/-! ## Depth-calibration claims -/

/-- Sum identities when the targets are an exact affine image of the depths. -/
theorem affine_sums (ps : List (ℚ × ℚ)) (a c : ℚ) (h : ∀ p ∈ ps, p.2 = a * p.1 + c) :
    sT ps = a * sD ps + nn ps * c ∧ sDT ps = a * sDD ps + c * sD ps := by
  induction ps with
  | nil => simp [sT, sD, sDT, sDD, nn]
  | cons p ps ih =>
    obtain ⟨ih1, ih2⟩ := ih (fun r hr => h r (List.mem_cons_of_mem _ hr))
    have hp := h p (List.mem_cons_self _ _)
    constructor
    · rw [sT_cons, sD_cons, nn_cons, hp, ih1]; ring
    · rw [sDT_cons, sDD_cons, sD_cons, hp, ih2]; ring

/-- On a full-rank system whose targets are exactly `a * d + c`, the
least-squares solve recovers `(a, c)` exactly. -/
theorem lstsq2_exact_affine (ps : List (ℚ × ℚ)) (a c : ℚ) (hdisc : disc ps ≠ 0)
    (h : ∀ p ∈ ps, p.2 = a * p.1 + c) : lstsq2 ps = (a, c) := by
  obtain ⟨h1, h2⟩ := affine_sums ps a c h
  rw [lstsq2_fullRank ps hdisc]
  rw [Prod.mk.injEq]
  constructor
  · rw [div_eq_iff hdisc, h1, h2, disc]; ring
  · rw [div_eq_iff hdisc, h1, h2, disc]; ring

/-- A pair of the zip with strictly positive sensor value is a valid pair. -/
theorem mem_calibValid (depth sensor : List ℚ) (p : ℚ × ℚ)
    (hmem : p ∈ depth.zip sensor) (hpos : 0 < p.2) : p ∈ calibValid depth sensor := by
  rw [calibValid, List.mem_filter]
  exact ⟨hmem, by simpa using hpos⟩

/-- C1 (amended): whenever both depth and sensor depth are loaded, the
calibrator forms the validity mask as the pixels of strictly positive sensor
depth, solves the least-squares problem with design-matrix columns
`[depth, 1]` over exactly the valid pixels, and rewrites every pixel (valid or
not) to `depth * s + b`; if `sensor = 2 * depth + 1/2` exactly on a valid
region containing two pixels of distinct depth, the recovered scale is exactly
2 and the offset exactly 1/2, and the corrected depth equals the sensor depth
on the valid region. -/
theorem c1_calibration (depth sensor : List ℚ)
    (hdist : ∃ p ∈ calibValid depth sensor, ∃ q ∈ calibValid depth sensor, p.1 ≠ q.1)
    (haff : ∀ p ∈ calibValid depth sensor, p.2 = 2 * p.1 + 1 / 2) :
    lstsq2E (calibValid depth sensor) = .ok (2, 1 / 2) ∧
    calibrateDepth depth sensor = .ok (depth.map (fun d => d * 2 + 1 / 2)) ∧
    (∀ p ∈ depth.zip sensor, 0 < p.2 → p.1 * 2 + 1 / 2 = p.2) ∧
    (∀ s b : ℚ, resid (calibValid depth sensor) 2 (1 / 2) ≤ resid (calibValid depth sensor) s b) := by
  obtain ⟨p, hp, q, hq, hpq⟩ := hdist
  have hdisc := (disc_pos_of_two _ p q hp hq hpq).ne'
  have hne : calibValid depth sensor ≠ [] := by
    rintro h0
    rw [h0] at hp
    simp at hp
  have hfit : lstsq2 (calibValid depth sensor) = (2, 1 / 2) :=
    lstsq2_exact_affine _ 2 (1 / 2) hdisc haff
  have hE : lstsq2E (calibValid depth sensor) = .ok (2, 1 / 2) := by
    rw [lstsq2E, if_neg (by simpa [List.isEmpty_iff] using hne), hfit]
  refine ⟨hE, ?_, ?_, ?_⟩
  · rw [calibrateDepth, hE]
  · intro r hmem hpos
    have hr := haff r (mem_calibValid depth sensor r hmem hpos)
    linarith
  · intro s b
    have hmin := lstsq2_minimizes (calibValid depth sensor) hne s b
    rw [hfit] at hmin
    exact hmin

/-- C1 witness: a two-pixel valid region with distinct depths, on which the
sensor is exactly `2 * depth + 1/2`. -/
theorem c1_calibration_witness :
    ((∃ p ∈ calibValid [1, 2] [5 / 2, 9 / 2], ∃ q ∈ calibValid [1, 2] [5 / 2, 9 / 2], p.1 ≠ q.1) ∧
      (∀ p ∈ calibValid [1, 2] [5 / 2, 9 / 2], p.2 = 2 * p.1 + 1 / 2)) ∧
    (lstsq2E (calibValid [1, 2] [5 / 2, 9 / 2]) = .ok (2, 1 / 2) ∧
      calibrateDepth [1, 2] [5 / 2, 9 / 2] = .ok ([1, 2].map (fun d => d * 2 + 1 / 2)) ∧
      (∀ p ∈ List.zip ([1, 2] : List ℚ) [5 / 2, 9 / 2], 0 < p.2 → p.1 * 2 + 1 / 2 = p.2) ∧
      (∀ s b : ℚ, resid (calibValid [1, 2] [5 / 2, 9 / 2]) 2 (1 / 2)
        ≤ resid (calibValid [1, 2] [5 / 2, 9 / 2]) s b)) := by
  have hd : ∃ p ∈ calibValid [1, 2] [5 / 2, 9 / 2],
      ∃ q ∈ calibValid [1, 2] [5 / 2, 9 / 2], p.1 ≠ q.1 := by with_unfolding_all decide
  have ha : ∀ p ∈ calibValid [1, 2] [5 / 2, 9 / 2], p.2 = 2 * p.1 + 1 / 2 := by
    with_unfolding_all decide
  with_unfolding_all exact ⟨⟨hd, ha⟩, c1_calibration [1, 2] [5 / 2, 9 / 2] hd ha⟩

/-- C1 counterexample: with a non-empty valid region of a single pixel
(`depth = 1`, `sensor = 5/2 = 2 * 1 + 1/2`), the rank-deficient least-squares
solve returns the minimum-norm solution `(5/4, 5/4)`, not scale 2 and offset
1/2 (and not within a `1/10000` tolerance of them): "non-empty valid region"
is not enough for the claimed recovery. -/
theorem c1_counterexample :
    calibValid [1, 5] [5 / 2, 0] ≠ [] ∧
    (∀ p ∈ calibValid [1, 5] [5 / 2, 0], p.2 = 2 * p.1 + 1 / 2) ∧
    lstsq2E (calibValid [1, 5] [5 / 2, 0]) = .ok (5 / 4, 5 / 4) ∧
    ¬ |(5 / 4 : ℚ) - 2| ≤ 1 / 10000 ∧
    calibrateDepth [1, 5] [5 / 2, 0] = .ok [5 / 2, 15 / 2] := by
  refine ⟨?_, ?_, ?_, ?_, ?_⟩ <;> with_unfolding_all decide

/-- C2: with both depth and sensor depth present but no strictly positive
sensor pixel, the unguarded code reaches the raw solver failure on an empty
design matrix; it never raises the `CalibrationError` the spec demands.
`metaNoValid` supplies `depth_image = [1, 2]`, `sensor_depth = [0, -1]`. -/
theorem c2_zeroValid_raw_solver_error :
    getMetadata metaNoValid 0 = .error .lstsqEmptySystem ∧
    getMetadata metaNoValid 0 ≠ .error .calibrationError := by
  constructor
  · with_unfolding_all rfl
  · intro hcon
    have h0 : getMetadata metaNoValid 0 = Except.error DataError.lstsqEmptySystem := by
      with_unfolding_all rfl
    rw [h0] at hcon
    simp at hcon

/-! ## The size probe (C7) -/

/-- The scan over the images after the first: flag and inspection count. -/
theorem probeAux_spec (hw : Nat × Nat) (l : List (Nat × Nat)) :
    ((probeAux (some hw) l).1 = false ↔ ∃ s ∈ l, s ≠ hw) ∧
    (probeAux (some hw) l).2 = min l.length (l.findIdx (fun s => decide (s ≠ hw)) + 1) := by
  induction l with
  | nil => simp [probeAux]
  | cons s rest ih =>
    by_cases hs : s = hw
    · subst hs
      rw [probeAux, if_neg (by simp)]
      constructor
      · simp only [List.mem_cons]
        constructor
        · intro hfalse
          obtain ⟨t, ht, htne⟩ := ih.1.mp hfalse
          exact ⟨t, Or.inr ht, htne⟩
        · rintro ⟨t, (rfl | ht), htne⟩
          · exact absurd rfl htne
          · exact ih.1.mpr ⟨t, ht, htne⟩
      · rw [List.findIdx_cons]
        simp only [decide_not, decide_eq_true_eq]
        have : (s == s) = true := by simp
        simp only [List.length_cons]
        rw [ih.2]
        simp
        omega
    · rw [probeAux, if_pos hs]
      constructor
      · simp only [true_iff]
        exact ⟨s, List.mem_cons_self _ _, hs⟩
      · rw [List.findIdx_cons]
        have hps : (fun t => decide (t ≠ hw)) s = true := by simpa using hs
        simp [hps]

/-- C7: the constructor's size probe records the first image's size, compares
every later image against it, is false iff some later image differs, opens at
most N images, and stops right after the first mismatch (the count is the
first-mismatch position when one exists, N otherwise); in particular a dataset
whose last image alone differs yields a false flag. -/
theorem c7_sizeProbe (hw : Nat × Nat) (l : List (Nat × Nat)) :
    ((sizeProbe (hw :: l)).1 = false ↔ ∃ s ∈ l, s ≠ hw) ∧
    (sizeProbe (hw :: l)).2
      = min l.length (l.findIdx (fun s => decide (s ≠ hw)) + 1) + 1 ∧
    (sizeProbe (hw :: l)).2 ≤ (hw :: l).length ∧
    (∀ last ∈ l, last ≠ hw → (sizeProbe (hw :: l)).1 = false) := by
  have h := probeAux_spec hw l
  have hrw : sizeProbe (hw :: l)
      = ((probeAux (some hw) l).1, (probeAux (some hw) l).2 + 1) := by
    rw [sizeProbe, probeAux]
  refine ⟨?_, ?_, ?_, ?_⟩
  · rw [hrw]; exact h.1
  · rw [hrw]; simpa using h.2
  · rw [hrw]
    simp only [List.length_cons]
    have := h.2
    omega
  · intro last hmem hne
    rw [hrw]
    exact h.1.mpr ⟨last, hmem, hne⟩

/-! ## The image cache (C4) -/

/-- On a coherent cache, the resolved image is the decode of the index,
whether the call hits or misses. -/
theorem getImageCached_val (g : Nat → Tensor3 ℚ) (cache : List (Nat × Tensor3 ℚ)) (idx : Nat)
    (hcoh : Coherent g cache) : (getImageCached g cache idx).1 = g idx := by
  rw [getImageCached]
  cases hl : cache.lookup idx with
  | some img => exact hcoh idx img hl
  | none => rfl

/-- The cache branch preserves coherence. -/
theorem getImageCached_coherent (g : Nat → Tensor3 ℚ) (cache : List (Nat × Tensor3 ℚ))
    (idx : Nat) (hcoh : Coherent g cache) : Coherent g (getImageCached g cache idx).2.1 := by
  rw [getImageCached]
  cases hl : cache.lookup idx with
  | some img => exact hcoh
  | none =>
    intro i img hli
    rw [List.lookup] at hli
    cases hbeq : i == idx with
    | true =>
      rw [hbeq] at hli
      have hieq : i = idx := eq_of_beq hbeq
      simp only [Option.some.injEq] at hli
      rw [hieq, ← hli]
    | false =>
      rw [hbeq] at hli
      exact hcoh i img hli

/-- After the cache branch, the index is stored, holding the decoded image
itself. -/
theorem getImageCached_stores (g : Nat → Tensor3 ℚ) (cache : List (Nat × Tensor3 ℚ))
    (idx : Nat) (hcoh : Coherent g cache) :
    (getImageCached g cache idx).2.1.lookup idx = some (g idx) := by
  rw [getImageCached]
  cases hl : cache.lookup idx with
  | some img =>
    simp only
    rw [hl, hcoh idx img hl]
  | none =>
    simp only [List.lookup]
    simp

/-- A hit decodes nothing; a miss decodes exactly once. -/
theorem getImageCached_count (g : Nat → Tensor3 ℚ) (cache : List (Nat × Tensor3 ℚ)) (idx : Nat) :
    ((cache.lookup idx).isSome → (getImageCached g cache idx).2.2 = 0) ∧
    (cache.lookup idx = none → (getImageCached g cache idx).2.2 = 1) := by
  rw [getImageCached]
  cases hl : cache.lookup idx with
  | some img => exact ⟨fun _ => rfl, fun hc => by simp at hc⟩
  | none => exact ⟨fun hc => by simp at hc, fun _ => rfl⟩

/-- On a coherent cache, `get_data` behaves as the pure assembly of the decode
of the index, with the cache branch's cache and count. -/
theorem getData_eq {κ ε : Type} (cfg : DatasetCfg κ ε) (cache : List (Nat × Tensor3 ℚ))
    (idx : Nat) (hcoh : Coherent cfg.getImage cache) :
    getData cfg cache idx
      = match assembleSample cfg idx (cfg.getImage idx) with
        | .error e => .error e
        | .ok s => .ok (s, (getImageCached cfg.getImage cache idx).2.1,
            (getImageCached cfg.getImage cache idx).2.2) := by
  rw [getData, getImageCached_val cfg.getImage cache idx hcoh]

/-- C4: on a coherent cache, two successive `get_data(i)` calls return equal
samples (their image tensors included); the second call is a cache hit that
performs no decode and leaves the cache unchanged, the first call from a cache
without the index performs exactly one decode, the cache afterwards stores the
decoded tensor itself, and any coherent cache state (hit or miss) yields the
same returned sample. -/
theorem c4_cache {κ ε : Type} (cfg : DatasetCfg κ ε) (cache : List (Nat × Tensor3 ℚ)) (idx : Nat)
    (s1 s2 : Sample ε) (c1 c2 : List (Nat × Tensor3 ℚ)) (n1 n2 : Nat)
    (hcoh : Coherent cfg.getImage cache)
    (h1 : getData cfg cache idx = .ok (s1, c1, n1))
    (h2 : getData cfg c1 idx = .ok (s2, c2, n2)) :
    s1 = s2 ∧ c2 = c1 ∧ n2 = 0 ∧
    (cache.lookup idx = none → n1 = 1) ∧
    c1.lookup idx = some (cfg.getImage idx) ∧
    (∀ cache' s' cc' n', Coherent cfg.getImage cache' →
      getData cfg cache' idx = .ok (s', cc', n') → s' = s1) := by
  rw [getData_eq cfg cache idx hcoh] at h1
  have hcoh1 : Coherent cfg.getImage c1 := by
    cases hassem : assembleSample cfg idx (cfg.getImage idx) with
    | error e => rw [hassem] at h1; exact absurd h1 (by simp)
    | ok s =>
      rw [hassem] at h1
      simp only [Except.ok.injEq, Prod.mk.injEq] at h1
      obtain ⟨hs, hc, hn⟩ := h1
      rw [← hc]
      exact getImageCached_coherent cfg.getImage cache idx hcoh
  cases hassem : assembleSample cfg idx (cfg.getImage idx) with
  | error e =>
    rw [hassem] at h1
    exact absurd h1 (by simp)
  | ok s =>
    rw [hassem] at h1
    simp only [Except.ok.injEq, Prod.mk.injEq] at h1
    obtain ⟨hs1, hc1, hn1⟩ := h1
    have hstore : c1.lookup idx = some (cfg.getImage idx) := by
      rw [← hc1]
      exact getImageCached_stores cfg.getImage cache idx hcoh
    rw [getData_eq cfg c1 idx hcoh1, hassem] at h2
    simp only [Except.ok.injEq, Prod.mk.injEq] at h2
    obtain ⟨hs2, hc2, hn2⟩ := h2
    have hhit : (getImageCached cfg.getImage c1 idx).2.1 = c1
        ∧ (getImageCached cfg.getImage c1 idx).2.2 = 0 := by
      rw [getImageCached, hstore]
      exact ⟨rfl, rfl⟩
    refine ⟨?_, ?_, ?_, ?_, hstore, ?_⟩
    · rw [← hs1, ← hs2]
    · rw [← hc2, hhit.1]
    · rw [← hn2, hhit.2]
    · intro hnone
      rw [← hn1]
      exact (getImageCached_count cfg.getImage cache idx).2 hnone
    · intro cache' s' cc' n' hcoh' hget
      rw [getData_eq cfg cache' idx hcoh', hassem] at hget
      simp only [Except.ok.injEq, Prod.mk.injEq] at hget
      rw [← hget.1, ← hs1]

/-- C4 witness: the minimal one-image dataset, called twice from the empty
cache. -/
theorem c4_cache_witness :
    ∃ s1 s2 c1 c2 n1 n2,
      getData cfg0 [] 0 = .ok (s1, c1, n1) ∧
      getData cfg0 c1 0 = .ok (s2, c2, n2) ∧
      s1 = s2 ∧ c2 = c1 ∧ n2 = 0 ∧ n1 = 1 ∧
      c1.lookup 0 = some (cfg0.getImage 0) := by
  cases hget : getData cfg0 [] 0 with
  | error e =>
    have : getData cfg0 [] 0 = .ok
        (⟨0, ⟨[isGrayOf imgColor]⟩, ⟨[imgColor]⟩, [], none, none, none, none⟩,
          [(0, imgColor)], 1) := by with_unfolding_all rfl
    rw [this] at hget
    exact absurd hget (by simp)
  | ok r =>
    obtain ⟨s1, c1, n1⟩ := r
    cases hget2 : getData cfg0 c1 0 with
    | error e =>
      have hcoh : Coherent cfg0.getImage ([] : List (Nat × Tensor3 ℚ)) := by
        intro i img hl
        simp [List.lookup] at hl
      have h1 : getData cfg0 [] 0 = .ok
          (⟨0, ⟨[isGrayOf imgColor]⟩, ⟨[imgColor]⟩, [], none, none, none, none⟩,
            [(0, imgColor)], 1) := by with_unfolding_all rfl
      rw [h1] at hget
      simp only [Except.ok.injEq, Prod.mk.injEq] at hget
      obtain ⟨hs, hc, hn⟩ := hget
      rw [← hc] at hget2
      have h2 : getData cfg0 [(0, imgColor)] 0 = .ok
          (⟨0, ⟨[isGrayOf imgColor]⟩, ⟨[imgColor]⟩, [], none, none, none, none⟩,
            [(0, imgColor)], 0) := by with_unfolding_all rfl
      rw [h2] at hget2
      exact absurd hget2 (by simp)
    | ok r2 =>
      obtain ⟨s2, c2, n2⟩ := r2
      have hcoh : Coherent cfg0.getImage ([] : List (Nat × Tensor3 ℚ)) := by
        intro i img hl
        simp [List.lookup] at hl
      have hmain := c4_cache cfg0 [] 0 s1 s2 c1 c2 n1 n2 hcoh hget hget2
      exact ⟨s1, s2, c1, c2, n1, n2, rfl, hget2, hmain.1, hmain.2.1, hmain.2.2.1,
        hmain.2.2.2.1 rfl, hmain.2.2.2.2.1⟩

/-! ## Mask extraction (C5) -/

theorem rowNonzeroAux_length (i : Nat) (row : List (List ℚ)) : ∀ j,
    (rowNonzeroAux i j row).length = row.countP (fun px => decide (px.headD 0 ≠ 0)) := by
  induction row with
  | nil => intro j; simp [rowNonzeroAux]
  | cons px rest ih =>
    intro j
    rw [rowNonzeroAux, List.countP_cons]
    by_cases hpx : px.headD 0 ≠ 0
    · rw [if_pos hpx, List.length_cons, ih (j + 1)]
      have hdec : (decide (px.headD 0 ≠ 0)) = true := by simpa using hpx
      rw [hdec]
      simp
    · rw [if_neg hpx, ih (j + 1)]
      have hdec : (decide (px.headD 0 ≠ 0)) = false := by simpa using hpx
      rw [hdec]
      simp

theorem nonzeroAux_length (rows : List (List (List ℚ))) : ∀ i,
    (nonzeroAux i rows).length
      = (rows.map (fun row => row.countP (fun px => decide (px.headD 0 ≠ 0)))).sum := by
  induction rows with
  | nil => intro i; simp [nonzeroAux]
  | cons row rest ih =>
    intro i
    rw [nonzeroAux, List.length_append, rowNonzeroAux_length, ih (i + 1)]
    simp

/-- The coordinate list has exactly one entry per non-zero pixel. -/
theorem nonzeroCoords_length (m : Tensor3 ℚ) :
    (nonzeroCoords m).length = nonzeroCount m := by
  rw [nonzeroCoords, nonzeroCount, nonzeroAux_length]

theorem rowNonzeroAux_mem (i a b : Nat) (row : List (List ℚ)) : ∀ j,
    ((a, b) ∈ rowNonzeroAux i j row ↔
      a = i ∧ ∃ k, b = j + k ∧ ∃ px, row.get? k = some px ∧ px.headD 0 ≠ 0) := by
  induction row with
  | nil => intro j; simp [rowNonzeroAux]
  | cons px rest ih =>
    intro j
    rw [rowNonzeroAux]
    by_cases hpx : px.headD 0 ≠ 0
    · rw [if_pos hpx, List.mem_cons, ih (j + 1)]
      constructor
      · rintro (heq | ⟨ha, k, hb, px', hget, hne⟩)
        · obtain ⟨ha, hb⟩ := Prod.ext_iff.mp heq
          refine ⟨by simpa using ha, 0, by simp at hb; omega, px, rfl, hpx⟩
        · exact ⟨ha, k + 1, by omega, px', by simpa using hget, hne⟩
      · rintro ⟨ha, k, hb, px', hget, hne⟩
        cases k with
        | zero =>
          left
          have : b = j := by omega
          rw [ha, this]
        | succ k0 =>
          right
          refine ⟨ha, k0, by omega, px', by simpa using hget, hne⟩
    · rw [if_neg hpx, ih (j + 1)]
      constructor
      · rintro ⟨ha, k, hb, px', hget, hne⟩
        exact ⟨ha, k + 1, by omega, px', by simpa using hget, hne⟩
      · rintro ⟨ha, k, hb, px', hget, hne⟩
        cases k with
        | zero =>
          simp only [List.get?, Option.some.injEq] at hget
          rw [← hget] at hne
          exact absurd hne hpx
        | succ k0 =>
          refine ⟨ha, k0, by omega, px', by simpa using hget, hne⟩

theorem nonzeroAux_mem (a b : Nat) (rows : List (List (List ℚ))) : ∀ i,
    ((a, b) ∈ nonzeroAux i rows ↔
      ∃ k, a = i + k ∧ ∃ row, rows.get? k = some row ∧
        ∃ px, row.get? b = some px ∧ px.headD 0 ≠ 0) := by
  induction rows with
  | nil => intro i; simp [nonzeroAux]
  | cons row rest ih =>
    intro i
    rw [nonzeroAux, List.mem_append, rowNonzeroAux_mem, ih (i + 1)]
    constructor
    · rintro (⟨ha, k, hb, px, hget, hne⟩ | ⟨k, ha, row', hrow, px, hget, hne⟩)
      · refine ⟨0, by omega, row, rfl, px, ?_, hne⟩
        have hk : k = b := by omega
        rw [← hk]
        exact hget
      · exact ⟨k + 1, by omega, row', by simpa using hrow, px, hget, hne⟩
    · rintro ⟨k, ha, row', hrow, px, hget, hne⟩
      cases k with
      | zero =>
        left
        simp only [List.get?, Option.some.injEq] at hrow
        rw [← hrow] at hget
        exact ⟨by omega, b, by omega, px, hget, hne⟩
      | succ k0 =>
        right
        refine ⟨k0, by omega, row', by simpa using hrow, px, hget, hne⟩

/-- A coordinate is listed iff that pixel exists and its channel-0 value is
non-zero. -/
theorem nonzeroCoords_mem (m : Tensor3 ℚ) (a b : Nat) :
    (a, b) ∈ nonzeroCoords m ↔
      ∃ row, m.val.get? a = some row ∧ ∃ px, row.get? b = some px ∧ px.headD 0 ≠ 0 := by
  rw [nonzeroCoords, nonzeroAux_mem]
  constructor
  · rintro ⟨k, ha, row, hrow, hpx⟩
    have : k = a := by omega
    rw [this] at hrow
    exact ⟨row, hrow, hpx⟩
  · rintro ⟨row, hrow, hpx⟩
    exact ⟨a, by omega, row, hrow, hpx⟩

/-- The tiling step never changes the spatial height. -/
theorem tiled_height (t : Tensor3 ℚ) :
    (if t.channels = 1 then tile113 t else t).height = t.height := by
  by_cases h : t.channels = 1 <;> simp [h, tile113]

/-- The tiling step never changes the spatial width. -/
theorem tiled_width (t : Tensor3 ℚ) :
    (if t.channels = 1 then tile113 t else t).width = t.width := by
  by_cases h : t.channels = 1 <;> simp [h, tile113]

/-- `assembleSample` with masks present, once the callback loop has
succeeded, is the mask branch followed by the metadata merge. -/
theorem assembleSample_mask {κ ε : Type} (cfg : DatasetCfg κ ε) (idx : Nat)
    (img0 : Tensor3 ℚ) (mi : Nat → Tensor3 ℚ) (ex : List (String × ε))
    (hm : cfg.maskImages = some mi)
    (he : (processEntries cfg.metaEntries idx).2 = Except.ok ex) :
    assembleSample cfg idx img0
      = match maskStep (if img0.channels = 1 then tile113 img0 else img0) (mi idx) with
        | .error e => .error e
        | .ok mb =>
          match getMetadata cfg.meta idx with
          | .error e => .error e
          | .ok m => .ok ⟨idx, ⟨[isGrayOf img0]⟩,
              ⟨[if img0.channels = 1 then tile113 img0 else img0]⟩, ex, some mb,
              m.depth_image, m.sensor_depth, m.normal_image⟩ := by
  rw [assembleSample, he, hm]
  cases hms : maskStep (if img0.channels = 1 then tile113 img0 else img0) (mi idx) with
  | error e => simp [hms]
  | ok mb =>
    cases hmd : getMetadata cfg.meta idx with
    | error e => simp [hms, hmd]
    | ok m => simp [hms, hmd]

/-- C5: when mask filenames exist (and the callback loop succeeds), a mask of
the wrong spatial shape makes `get_data` fail with the shape-mismatch
assertion, an all-zero mask makes it fail with the empty-mask assertion, and on
success the `mask` field is the ordered non-zero coordinate list, whose length
is the number of non-zero pixels (necessarily positive) and whose members are
exactly the non-zero pixel coordinates. -/
theorem c5_mask {κ ε : Type} (cfg : DatasetCfg κ ε) (cache : List (Nat × Tensor3 ℚ)) (idx : Nat)
    (mi : Nat → Tensor3 ℚ) (ex : List (String × ε))
    (hm : cfg.maskImages = some mi)
    (he : (processEntries cfg.metaEntries idx).2 = Except.ok ex) :
    (¬ ((mi idx).height = (getImageCached cfg.getImage cache idx).1.height ∧
        (mi idx).width = (getImageCached cfg.getImage cache idx).1.width) →
      getData cfg cache idx = .error .shapeMismatch) ∧
    (((mi idx).height = (getImageCached cfg.getImage cache idx).1.height ∧
        (mi idx).width = (getImageCached cfg.getImage cache idx).1.width) →
      nonzeroCount (mi idx) = 0 → getData cfg cache idx = .error .emptyMask) ∧
    (∀ s c' n, getData cfg cache idx = .ok (s, c', n) →
      s.mask = some ⟨[nonzeroCoords (mi idx)]⟩ ∧
      (nonzeroCoords (mi idx)).length = nonzeroCount (mi idx) ∧
      nonzeroCount (mi idx) ≠ 0 ∧
      (∀ a b, (a, b) ∈ nonzeroCoords (mi idx) ↔
        ∃ row, (mi idx).val.get? a = some row ∧
          ∃ px, row.get? b = some px ∧ px.headD 0 ≠ 0)) := by
  have hGD : getData cfg cache idx
      = match assembleSample cfg idx (getImageCached cfg.getImage cache idx).1 with
        | .error e => .error e
        | .ok s => .ok (s, (getImageCached cfg.getImage cache idx).2.1,
            (getImageCached cfg.getImage cache idx).2.2) := by
    rw [getData]
  have hA := assembleSample_mask cfg idx (getImageCached cfg.getImage cache idx).1 mi ex hm he
  refine ⟨?_, ?_, ?_⟩
  · intro hsh
    have hms : maskStep
        (if (getImageCached cfg.getImage cache idx).1.channels = 1
          then tile113 (getImageCached cfg.getImage cache idx).1
          else (getImageCached cfg.getImage cache idx).1) (mi idx)
        = .error .shapeMismatch := by
      rw [maskStep, if_neg]
      rw [tiled_height, tiled_width]
      exact hsh
    rw [hGD, hA, hms]
  · intro hsh hcount
    have hms : maskStep
        (if (getImageCached cfg.getImage cache idx).1.channels = 1
          then tile113 (getImageCached cfg.getImage cache idx).1
          else (getImageCached cfg.getImage cache idx).1) (mi idx)
        = .error .emptyMask := by
      rw [maskStep, if_pos (by rw [tiled_height, tiled_width]; exact hsh)]
      rw [if_neg (by rw [nonzeroCoords_length]; omega)]
    rw [hGD, hA, hms]
  · intro s c' n hok
    rw [hGD, hA] at hok
    cases hms : maskStep
        (if (getImageCached cfg.getImage cache idx).1.channels = 1
          then tile113 (getImageCached cfg.getImage cache idx).1
          else (getImageCached cfg.getImage cache idx).1) (mi idx) with
    | error e => rw [hms] at hok; exact absurd hok (by simp)
    | ok mb =>
      rw [hms] at hok
      cases hmd : getMetadata cfg.meta idx with
      | error e => rw [hmd] at hok; exact absurd hok (by simp)
      | ok m =>
        rw [hmd] at hok
        simp only [Except.ok.injEq, Prod.mk.injEq] at hok
        obtain ⟨hs, -, -⟩ := hok
        have hmb : mb = ⟨[nonzeroCoords (mi idx)]⟩ ∧ nonzeroCount (mi idx) ≠ 0 := by
          rw [maskStep] at hms
          by_cases hsh : (mi idx).height
              = (if (getImageCached cfg.getImage cache idx).1.channels = 1
                  then tile113 (getImageCached cfg.getImage cache idx).1
                  else (getImageCached cfg.getImage cache idx).1).height ∧
              (mi idx).width
              = (if (getImageCached cfg.getImage cache idx).1.channels = 1
                  then tile113 (getImageCached cfg.getImage cache idx).1
                  else (getImageCached cfg.getImage cache idx).1).width
          · rw [if_pos hsh] at hms
            by_cases hz : (nonzeroCoords (mi idx)).length ≠ 0
            · rw [if_pos hz] at hms
              simp only [Except.ok.injEq] at hms
              rw [nonzeroCoords_length] at hz
              exact ⟨hms.symm, hz⟩
            · rw [if_neg hz] at hms
              exact absurd hms (by simp)
          · rw [if_neg hsh] at hms
            exact absurd hms (by simp)
        refine ⟨?_, nonzeroCoords_length (mi idx), hmb.2, fun a b => nonzeroCoords_mem (mi idx) a b⟩
        rw [← hs]
        simp only
        rw [hmb.1]

/-- C5 witness: the one-pixel dataset with a non-zero 1×1 mask; `get_data`
succeeds and stores the singleton coordinate list `[(0, 0)]`. -/
theorem c5_mask_witness :
    getData cfgMask [] 0
      = .ok (⟨0, ⟨[isGrayOf imgColor]⟩, ⟨[imgColor]⟩, [], some ⟨[[(0, 0)]]⟩,
          none, none, none⟩, [(0, imgColor)], 1) ∧
    ∃ s c' n, getData cfgMask [] 0 = .ok (s, c', n) ∧
      s.mask = some ⟨[nonzeroCoords (maskImg)]⟩ ∧
      (nonzeroCoords maskImg).length = nonzeroCount maskImg ∧
      nonzeroCount maskImg ≠ 0 := by
  have hrun : getData cfgMask [] 0
      = .ok (⟨0, ⟨[isGrayOf imgColor]⟩, ⟨[imgColor]⟩, [], some ⟨[[(0, 0)]]⟩,
          none, none, none⟩, [(0, imgColor)], 1) := by
    with_unfolding_all rfl
  refine ⟨hrun, ?_⟩
  have h := (c5_mask cfgMask [] 0 (fun _ => maskImg) [] rfl rfl).2.2 _ _ _ hrun
  exact ⟨_, _, _, hrun, h.1, h.2.1, h.2.2.1⟩

/-! ## Metadata scale factors and field presence (C6, C8) -/

/-- C6: the predicted depth image is loaded with scale factor
`depth_unit_scale_factor * dataparser_scale`, while the sensor depth image is
loaded with `depth_unit_scale_factor` alone; when both are present the
calibration consumes exactly those two loaded images. -/
theorem c6_scaleFactors (cfg : MetaConfig) (idx : Nat) :
    (∀ g, cfg.sensorRaw = some g → ∀ m, getMetadata cfg idx = .ok m →
      m.sensor_depth
        = some ⟨[getDepthImageFromPath (g idx) cfg.depth_unit_scale_factor]⟩) ∧
    (∀ f, cfg.depthRaw = some f → cfg.sensorRaw = none →
      getMetadata cfg idx = .ok ⟨some ⟨[getDepthImageFromPath (f idx)
          (cfg.depth_unit_scale_factor * cfg.dataparser_scale)]⟩, none,
        cfg.normalRaw.map (fun raw => ⟨[raw idx]⟩)⟩) ∧
    (∀ f g, cfg.depthRaw = some f → cfg.sensorRaw = some g →
      getMetadata cfg idx
        = match calibrateDepth
            (getDepthImageFromPath (f idx)
              (cfg.depth_unit_scale_factor * cfg.dataparser_scale))
            (getDepthImageFromPath (g idx) cfg.depth_unit_scale_factor) with
          | .error e => .error e
          | .ok corrected => .ok ⟨some ⟨[corrected]⟩,
              some ⟨[getDepthImageFromPath (g idx) cfg.depth_unit_scale_factor]⟩,
              cfg.normalRaw.map (fun raw => ⟨[raw idx]⟩)⟩) := by
  refine ⟨?_, ?_, ?_⟩
  · intro g hg m hok
    cases hd : cfg.depthRaw with
    | none =>
      rw [getMetadata, hd, hg] at hok
      simp only [Option.map_some', Option.map_none', Except.ok.injEq] at hok
      rw [← hok]
    | some f =>
      rw [getMetadata, hd, hg] at hok
      simp only [Option.map_some', Option.map_none'] at hok
      cases hc : calibrateDepth
          (getDepthImageFromPath (f idx)
            (cfg.depth_unit_scale_factor * cfg.dataparser_scale))
          (getDepthImageFromPath (g idx) cfg.depth_unit_scale_factor) with
      | error e => rw [hc] at hok; exact absurd hok (by simp)
      | ok corrected =>
        rw [hc] at hok
        simp only [Except.ok.injEq] at hok
        rw [← hok]
  · intro f hf hs
    rw [getMetadata, hf, hs]
    simp only [Option.map_some', Option.map_none']
  · intro f g hf hg
    rw [getMetadata, hf, hg]
    simp only [Option.map_some', Option.map_none']

/-- C8: the metadata pass returns exactly the computed fields — `depth_image`
present iff depth inputs are, `sensor_depth` iff sensor inputs are,
`normal_image` iff normal inputs are, no null placeholders — and the
calibration overwrite of `depth_image` happens exactly when both sensor and
depth inputs are present. -/
theorem c8_metadataFields (cfg : MetaConfig) (idx : Nat) (m : MetaOut)
    (h : getMetadata cfg idx = .ok m) :
    (m.depth_image.isSome = true ↔ cfg.depthRaw.isSome = true) ∧
    (m.sensor_depth.isSome = true ↔ cfg.sensorRaw.isSome = true) ∧
    (m.normal_image.isSome = true ↔ cfg.normalRaw.isSome = true) ∧
    (∀ f g, cfg.depthRaw = some f → cfg.sensorRaw = some g →
      ∃ sb, lstsq2E (calibValid
          (getDepthImageFromPath (f idx)
            (cfg.depth_unit_scale_factor * cfg.dataparser_scale))
          (getDepthImageFromPath (g idx) cfg.depth_unit_scale_factor)) = .ok sb ∧
        m.depth_image = some ⟨[(getDepthImageFromPath (f idx)
            (cfg.depth_unit_scale_factor * cfg.dataparser_scale)).map
          (fun d => d * sb.1 + sb.2)]⟩) ∧
    (∀ f, cfg.depthRaw = some f → cfg.sensorRaw = none →
      m.depth_image = some ⟨[getDepthImageFromPath (f idx)
        (cfg.depth_unit_scale_factor * cfg.dataparser_scale)]⟩) ∧
    (cfg.depthRaw = none → m.depth_image = none) := by
  cases hd : cfg.depthRaw with
  | none =>
    cases hs : cfg.sensorRaw with
    | none =>
      rw [getMetadata, hd, hs] at h
      simp only [Option.map_none', Except.ok.injEq] at h
      rw [← h]
      refine ⟨by simp, by simp, by simp [Option.isSome_map'], ?_, ?_, fun _ => rfl⟩
      · intro f g hf _
        exact Option.noConfusion hf
      · intro f hf _
        exact Option.noConfusion hf
    | some g =>
      rw [getMetadata, hd, hs] at h
      simp only [Option.map_none', Option.map_some', Except.ok.injEq] at h
      rw [← h]
      refine ⟨by simp, by simp, by simp [Option.isSome_map'], ?_, ?_, fun _ => rfl⟩
      · intro f g' hf _
        exact Option.noConfusion hf
      · intro f hf _
        exact Option.noConfusion hf
  | some f =>
    cases hs : cfg.sensorRaw with
    | none =>
      rw [getMetadata, hd, hs] at h
      simp only [Option.map_none', Option.map_some', Except.ok.injEq] at h
      rw [← h]
      refine ⟨by simp, by simp, by simp [Option.isSome_map'], ?_, ?_, by simp⟩
      · intro f' g hf' hg
        exact Option.noConfusion hg
      · intro f' hf' _
        injection hf' with hff
        rw [← hff]
    | some g =>
      rw [getMetadata, hd, hs] at h
      simp only [Option.map_none', Option.map_some'] at h
      cases hc : calibrateDepth
          (getDepthImageFromPath (f idx)
            (cfg.depth_unit_scale_factor * cfg.dataparser_scale))
          (getDepthImageFromPath (g idx) cfg.depth_unit_scale_factor) with
      | error e => rw [hc] at h; exact Except.noConfusion h
      | ok corrected =>
        rw [hc] at h
        simp only [Except.ok.injEq] at h
        rw [← h]
        refine ⟨by simp, by simp, by simp [Option.isSome_map'], ?_, ?_, by simp⟩
        · intro f' g' hf' hg'
          injection hf' with hff
          injection hg' with hgg
          rw [← hff, ← hgg]
          rw [calibrateDepth] at hc
          cases hE : lstsq2E (calibValid
              (getDepthImageFromPath (f idx)
                (cfg.depth_unit_scale_factor * cfg.dataparser_scale))
              (getDepthImageFromPath (g idx) cfg.depth_unit_scale_factor)) with
          | error e => rw [hE] at hc; exact Except.noConfusion hc
          | ok sb =>
            rw [hE] at hc
            simp only [Except.ok.injEq] at hc
            refine ⟨sb, rfl, ?_⟩
            simp only [Option.some.injEq, BasicImages.mk.injEq]
            rw [← hc]
        · intro f' hf' hcon
          exact Option.noConfusion hcon

/-- C8 witness: with depth, sensor and normal inputs all present (`metaBoth`),
`get_metadata` succeeds; all three fields are present, and the depth field is
the calibrated overwrite. -/
theorem c8_metadataFields_witness :
    ∃ m, getMetadata metaBoth 0 = .ok m ∧
      m.depth_image.isSome = true ∧ m.sensor_depth.isSome = true ∧
      m.normal_image.isSome = true := by
  have h0 : getMetadata metaBoth 0
      = .ok ⟨some ⟨[[5 / 2, 9 / 2]]⟩, some ⟨[[5 / 2, 9 / 2]]⟩, some ⟨[[0, 0, 1]]⟩⟩ := by
    with_unfolding_all rfl
  have h := c8_metadataFields metaBoth 0 _ h0
  refine ⟨_, h0, h.1.mpr rfl, h.2.1.mpr rfl, h.2.2.1.mpr rfl⟩

/-! ## Sample shape (C9) -/

/-- A successful mask step wraps exactly one tensor. -/
theorem maskStep_singleton (image mask_image : Tensor3 ℚ) (b : BasicImages (List (Nat × Nat)))
    (h : maskStep image mask_image = .ok b) : b.images.length = 1 := by
  rw [maskStep] at h
  by_cases hsh : mask_image.height = image.height ∧ mask_image.width = image.width
  · rw [if_pos hsh] at h
    by_cases hz : (nonzeroCoords mask_image).length ≠ 0
    · rw [if_pos hz] at h
      simp only [Except.ok.injEq] at h
      rw [← h]
      rfl
    · rw [if_neg hz] at h
      exact Except.noConfusion h
  · rw [if_neg hsh] at h
    exact Except.noConfusion h

/-- The optional normal field wraps exactly one tensor when present. -/
theorem normalPart_singleton (o : Option (Nat → List ℚ)) (idx : Nat) :
    ∀ b, o.map (fun raw => BasicImages.mk [raw idx]) = some b → b.images.length = 1 := by
  intro b hb
  cases o with
  | none => exact Option.noConfusion hb
  | some raw =>
    simp only [Option.map_some', Option.some.injEq] at hb
    rw [← hb]
    rfl

/-- Every optional field a successful `get_metadata` returns wraps exactly one
tensor. -/
theorem getMetadata_singleton (cfg : MetaConfig) (idx : Nat) (m : MetaOut)
    (h : getMetadata cfg idx = .ok m) :
    (∀ b, m.depth_image = some b → b.images.length = 1) ∧
    (∀ b, m.sensor_depth = some b → b.images.length = 1) ∧
    (∀ b, m.normal_image = some b → b.images.length = 1) := by
  cases hd : cfg.depthRaw with
  | none =>
    cases hs : cfg.sensorRaw with
    | none =>
      rw [getMetadata, hd, hs] at h
      simp only [Option.map_none', Except.ok.injEq] at h
      rw [← h]
      refine ⟨?_, ?_, normalPart_singleton cfg.normalRaw idx⟩
      · intro b hb; exact Option.noConfusion hb
      · intro b hb; exact Option.noConfusion hb
    | some g =>
      rw [getMetadata, hd, hs] at h
      simp only [Option.map_none', Option.map_some', Except.ok.injEq] at h
      rw [← h]
      refine ⟨?_, ?_, normalPart_singleton cfg.normalRaw idx⟩
      · intro b hb; exact Option.noConfusion hb
      · intro b hb
        simp only [Option.some.injEq] at hb
        rw [← hb]
        rfl
  | some f =>
    cases hs : cfg.sensorRaw with
    | none =>
      rw [getMetadata, hd, hs] at h
      simp only [Option.map_none', Option.map_some', Except.ok.injEq] at h
      rw [← h]
      refine ⟨?_, ?_, normalPart_singleton cfg.normalRaw idx⟩
      · intro b hb
        simp only [Option.some.injEq] at hb
        rw [← hb]
        rfl
      · intro b hb; exact Option.noConfusion hb
    | some g =>
      rw [getMetadata, hd, hs] at h
      simp only [Option.map_none', Option.map_some'] at h
      cases hc : calibrateDepth
          (getDepthImageFromPath (f idx)
            (cfg.depth_unit_scale_factor * cfg.dataparser_scale))
          (getDepthImageFromPath (g idx) cfg.depth_unit_scale_factor) with
      | error e => rw [hc] at h; exact Except.noConfusion h
      | ok corrected =>
        rw [hc] at h
        simp only [Except.ok.injEq] at h
        rw [← h]
        refine ⟨?_, ?_, normalPart_singleton cfg.normalRaw idx⟩
        · intro b hb
          simp only [Option.some.injEq] at hb
          rw [← hb]
          rfl
        · intro b hb
          simp only [Option.some.injEq] at hb
          rw [← hb]
          rfl

/-- Every successful assembly carries the index, singleton-wrapped mandatory
fields, and singleton-wrapped optional fields. -/
theorem assembleSample_shape {κ ε : Type} (cfg : DatasetCfg κ ε) (idx : Nat)
    (img0 : Tensor3 ℚ) (s0 : Sample ε) (h : assembleSample cfg idx img0 = .ok s0) :
    s0.image_idx = idx ∧ s0.is_gray.images.length = 1 ∧ s0.image.images.length = 1 ∧
    (∀ b, s0.mask = some b → b.images.length = 1) ∧
    (∀ b, s0.depth_image = some b → b.images.length = 1) ∧
    (∀ b, s0.sensor_depth = some b → b.images.length = 1) ∧
    (∀ b, s0.normal_image = some b → b.images.length = 1) := by
  cases hpe : (processEntries cfg.metaEntries idx).2 with
  | error e =>
    rw [assembleSample, hpe] at h
    exact Except.noConfusion h
  | ok ex =>
    cases hmi : cfg.maskImages with
    | none =>
      rw [assembleSample, hpe, hmi] at h
      cases hmd : getMetadata cfg.meta idx with
      | error e => rw [hmd] at h; exact Except.noConfusion h
      | ok m =>
        rw [hmd] at h
        simp only [Except.ok.injEq] at h
        rw [← h]
        have hm := getMetadata_singleton cfg.meta idx m hmd
        exact ⟨rfl, rfl, rfl, fun b hb => Option.noConfusion hb, hm.1, hm.2.1, hm.2.2⟩
    | some mi =>
      rw [assembleSample_mask cfg idx img0 mi ex hmi hpe] at h
      cases hms : maskStep (if img0.channels = 1 then tile113 img0 else img0) (mi idx) with
      | error e => rw [hms] at h; exact Except.noConfusion h
      | ok mb =>
        rw [hms] at h
        cases hmd : getMetadata cfg.meta idx with
        | error e => rw [hmd] at h; exact Except.noConfusion h
        | ok m =>
          rw [hmd] at h
          simp only [Except.ok.injEq] at h
          rw [← h]
          have hm := getMetadata_singleton cfg.meta idx m hmd
          refine ⟨rfl, rfl, rfl, ?_, hm.1, hm.2.1, hm.2.2⟩
          intro b hb
          simp only [Option.some.injEq] at hb
          rw [← hb]
          exact maskStep_singleton _ _ mb hms

/-- C9: every sample `get_data` returns carries the mandatory fields — the
requested integer index, the 3-channel image and the `is_gray` tensor — and
every `BasicImages` ownership wrapper the engine builds (image, is_gray, mask,
depth, sensor depth, normal) wraps a sequence of exactly one tensor. -/
theorem c9_sampleShape {κ ε : Type} (cfg : DatasetCfg κ ε) (cache : List (Nat × Tensor3 ℚ))
    (idx : Nat) (s : Sample ε) (c' : List (Nat × Tensor3 ℚ)) (n : Nat)
    (h : getData cfg cache idx = .ok (s, c', n)) :
    s.image_idx = idx ∧ s.is_gray.images.length = 1 ∧ s.image.images.length = 1 ∧
    (∀ b, s.mask = some b → b.images.length = 1) ∧
    (∀ b, s.depth_image = some b → b.images.length = 1) ∧
    (∀ b, s.sensor_depth = some b → b.images.length = 1) ∧
    (∀ b, s.normal_image = some b → b.images.length = 1) := by
  rw [getData] at h
  cases ha : assembleSample cfg idx (getImageCached cfg.getImage cache idx).1 with
  | error e => rw [ha] at h; exact Except.noConfusion h
  | ok s0 =>
    rw [ha] at h
    simp only [Except.ok.injEq, Prod.mk.injEq] at h
    obtain ⟨hs, -, -⟩ := h
    rw [← hs]
    exact assembleSample_shape cfg idx _ s0 ha

/-- C9 witness: the minimal one-image dataset. -/
theorem c9_sampleShape_witness :
    ∃ s c' n, getData cfg0 [] 0 = .ok (s, c', n) ∧ Sample.image_idx s = 0 ∧
      (Sample.image s).images.length = 1 ∧ (Sample.is_gray s).images.length = 1 := by
  have h0 : getData cfg0 [] 0 = .ok
      (⟨0, ⟨[isGrayOf imgColor]⟩, ⟨[imgColor]⟩, [], none, none, none, none⟩,
        [(0, imgColor)], 1) := by with_unfolding_all rfl
  have h := c9_sampleShape cfg0 [] 0 _ _ _ h0
  exact ⟨_, _, _, h0, h.1, h.2.2.1, h.2.1⟩

/-! ## The callback loop (C10) -/

/-- Processing entries whose prefix passes the kwargs check and whose next
entry is a callback without kwargs: the loop fails with the kwargs assertion,
having invoked exactly the prefix's callbacks. -/
theorem processEntries_bad {κ ε : Type} (idx : Nat) (key : String)
    (f : Nat → κ → List (String × ε)) (post : List (String × MetaEntry κ ε)) :
    ∀ pre, (∀ e ∈ pre, entryGoodB e.2 = true) →
      processEntries (pre ++ (key, MetaEntry.cb none f) :: post) idx
        = (invokedKeys pre, .error .missingKwargs) := by
  intro pre
  induction pre with
  | nil => intro _; rfl
  | cons e rest ih =>
    intro hpre
    obtain ⟨k0, e0⟩ := e
    cases e0 with
    | plain =>
      rw [List.cons_append]
      rw [show processEntries ((k0, MetaEntry.plain) :: (rest ++ (key, MetaEntry.cb none f) :: post)) idx
          = processEntries (rest ++ (key, MetaEntry.cb none f) :: post) idx from rfl]
      rw [ih (fun e he => hpre e (List.mem_cons_of_mem _ he))]
      rfl
    | cb kw f0 =>
      cases kw with
      | none =>
        have hcon := hpre (k0, MetaEntry.cb none f0) (List.mem_cons_self _ _)
        simp [entryGoodB] at hcon
      | some kw0 =>
        rw [List.cons_append]
        rw [show processEntries ((k0, MetaEntry.cb (some kw0) f0)
              :: (rest ++ (key, MetaEntry.cb none f) :: post)) idx
            = (k0 :: (processEntries (rest ++ (key, MetaEntry.cb none f) :: post) idx).1,
               match (processEntries (rest ++ (key, MetaEntry.cb none f) :: post) idx).2 with
               | .error e => .error e
               | .ok fields => .ok (f0 idx kw0 ++ fields)) from rfl]
        rw [ih (fun e he => hpre e (List.mem_cons_of_mem _ he))]
        rfl

/-- The invocation trace is exactly the keys of the callbacks that carry both
"func" and "kwargs" before the first entry that fails the kwargs check. -/
theorem processEntries_trace {κ ε : Type} (idx : Nat) :
    ∀ entries : List (String × MetaEntry κ ε),
      (processEntries entries idx).1
        = invokedKeys (entries.takeWhile (fun e => entryGoodB e.2)) := by
  intro entries
  induction entries with
  | nil => rfl
  | cons e rest ih =>
    obtain ⟨k0, e0⟩ := e
    cases e0 with
    | plain =>
      rw [show processEntries ((k0, MetaEntry.plain) :: rest) idx
          = processEntries rest idx from rfl, ih]
      rfl
    | cb kw f0 =>
      cases kw with
      | none => rfl
      | some kw0 =>
        rw [show (processEntries ((k0, MetaEntry.cb (some kw0) f0) :: rest) idx).1
            = k0 :: (processEntries rest idx).1 from rfl, ih]
        rfl

/-- C10: a metadata entry that is a dict with "func" but without "kwargs"
makes `get_data` fail with the kwargs assertion, before invoking that callback
(the result does not depend on its function at all) and without returning a
sample; the invocation trace holds exactly the earlier entries that carry both
keys, and in general only entries with both keys are ever invoked (as
`func(image_idx, **kwargs)`). -/
theorem c10_missingKwargs {κ ε : Type} (cfg : DatasetCfg κ ε) (cache : List (Nat × Tensor3 ℚ))
    (idx : Nat) (pre post : List (String × MetaEntry κ ε)) (key : String)
    (f : Nat → κ → List (String × ε))
    (hsplit : cfg.metaEntries = pre ++ (key, MetaEntry.cb none f) :: post)
    (hpre : ∀ e ∈ pre, entryGoodB e.2 = true) :
    (processEntries cfg.metaEntries idx).2 = .error .missingKwargs ∧
    (processEntries cfg.metaEntries idx).1 = invokedKeys pre ∧
    getData cfg cache idx = .error .missingKwargs ∧
    (∀ entries : List (String × MetaEntry κ ε),
      (processEntries entries idx).1
        = invokedKeys (entries.takeWhile (fun e => entryGoodB e.2))) ∧
    (∀ (f' : Nat → κ → List (String × ε)) post',
      processEntries (pre ++ (key, MetaEntry.cb none f') :: post') idx
        = processEntries cfg.metaEntries idx) := by
  have hbad := processEntries_bad idx key f post pre hpre
  have h2 : (processEntries cfg.metaEntries idx).2 = .error .missingKwargs := by
    rw [hsplit, hbad]
  refine ⟨h2, by rw [hsplit, hbad], ?_, processEntries_trace idx, ?_⟩
  · have hassem : assembleSample cfg idx (getImageCached cfg.getImage cache idx).1
        = .error .missingKwargs := by
      rw [assembleSample, h2]
    rw [getData, hassem]
  · intro f' post'
    rw [processEntries_bad idx key f' post' pre hpre, hsplit, hbad]

/-- C10 witness: a good callback followed by one without "kwargs":
`get_data` fails with the kwargs assertion, having invoked only "good". -/
theorem c10_missingKwargs_witness :
    (processEntries cfgBadEntries.metaEntries 0).2 = .error .missingKwargs ∧
    (processEntries cfgBadEntries.metaEntries 0).1
      = invokedKeys [("good", MetaEntry.cb (some ()) (fun _ _ => [("x", ())]))] ∧
    getData cfgBadEntries [] 0 = .error .missingKwargs := by
  have h := c10_missingKwargs cfgBadEntries [] 0
      [("good", MetaEntry.cb (some ()) (fun _ _ => [("x", ())]))] []
      "bad" (fun _ _ => []) rfl
      (by
        intro e he
        rw [List.mem_singleton] at he
        rw [he]
        rfl)
  exact ⟨h.1, h.2.1, h.2.2.1⟩

/-- The mandatory image fields of a successful assembly: `is_gray` of the
decoded image (pre-tiling), and the tiled-or-unchanged image. -/
theorem assembleSample_fields {κ ε : Type} (cfg : DatasetCfg κ ε) (idx : Nat)
    (img0 : Tensor3 ℚ) (s0 : Sample ε) (h : assembleSample cfg idx img0 = .ok s0) :
    s0.is_gray = ⟨[isGrayOf img0]⟩ ∧ s0.image = ⟨[(imageStep img0).2]⟩ := by
  cases hpe : (processEntries cfg.metaEntries idx).2 with
  | error e =>
    rw [assembleSample, hpe] at h
    exact Except.noConfusion h
  | ok ex =>
    cases hmi : cfg.maskImages with
    | none =>
      rw [assembleSample, hpe, hmi] at h
      cases hmd : getMetadata cfg.meta idx with
      | error e => rw [hmd] at h; exact Except.noConfusion h
      | ok m =>
        rw [hmd] at h
        simp only [Except.ok.injEq] at h
        rw [← h]
        exact ⟨rfl, rfl⟩
    | some mi =>
      rw [assembleSample_mask cfg idx img0 mi ex hmi hpe] at h
      cases hms : maskStep (if img0.channels = 1 then tile113 img0 else img0) (mi idx) with
      | error e => rw [hms] at h; exact Except.noConfusion h
      | ok mb =>
        rw [hms] at h
        cases hmd : getMetadata cfg.meta idx with
        | error e => rw [hmd] at h; exact Except.noConfusion h
        | ok m =>
          rw [hmd] at h
          simp only [Except.ok.injEq] at h
          rw [← h]
          exact ⟨rfl, rfl⟩

/-! ## Grayscale detection and tiling (C3) -/

/-- C3: for a single-channel image, `is_gray` is an all-true boolean tensor of
the image's spatial shape (computed before tiling), and the image is tiled to
exactly 3 channels, all three equal to the original single channel; for a
three-channel image, `is_gray` is all false and the image passes unchanged. -/
theorem c3_grayscale (img : Tensor3 ℚ) :
    (img.channels = 1 →
      (isGrayOf img).height = img.height ∧ (isGrayOf img).width = img.width ∧
      (isGrayOf img).channels = 1 ∧
      (∀ row ∈ (isGrayOf img).val, ∀ px ∈ row, px = [true]) ∧
      (imageStep img).2.channels = 3 ∧
      (imageStep img).2.val = img.val.map (fun row => row.map (fun px => px ++ px ++ px)) ∧
      (img.wf → ∀ row ∈ img.val, ∀ px ∈ row,
        px ++ px ++ px = [px.headD 0, px.headD 0, px.headD 0])) ∧
    (img.channels = 3 →
      (∀ row ∈ (isGrayOf img).val, ∀ px ∈ row, px = [false]) ∧
      (imageStep img).2 = img) ∧
    (∀ (κ ε : Type) (cfg : DatasetCfg κ ε) (cache : List (Nat × Tensor3 ℚ)) (idx : Nat)
      (s : Sample ε) (c' : List (Nat × Tensor3 ℚ)) (n : Nat),
      getData cfg cache idx = .ok (s, c', n) →
      s.is_gray = ⟨[isGrayOf (getImageCached cfg.getImage cache idx).1]⟩ ∧
      s.image = ⟨[(imageStep (getImageCached cfg.getImage cache idx).1).2]⟩) := by
  refine ⟨?_, ?_, ?_⟩
  · intro h1
    refine ⟨rfl, rfl, rfl, ?_, ?_, ?_, ?_⟩
    · intro row hrow px hpx
      obtain ⟨row0, _, rfl⟩ := List.mem_map.mp hrow
      obtain ⟨px0, _, rfl⟩ := List.mem_map.mp hpx
      simp [h1]
    · simp [imageStep, if_pos h1, tile113, h1]
    · simp [imageStep, if_pos h1, tile113]
    · intro hwf row hrow px hpx
      have hlen := hwf.2.2 row hrow px hpx
      rw [h1] at hlen
      obtain ⟨a, rfl⟩ := List.length_eq_one.mp hlen
      simp
  · intro h3
    constructor
    · intro row hrow px hpx
      obtain ⟨row0, _, rfl⟩ := List.mem_map.mp hrow
      obtain ⟨px0, _, rfl⟩ := List.mem_map.mp hpx
      simp [h3]
    · have : ¬ img.channels = 1 := by rw [h3]; decide
      simp [imageStep, if_neg this]
  · intro κ ε cfg cache idx s c' n hok
    rw [getData] at hok
    cases ha : assembleSample cfg idx (getImageCached cfg.getImage cache idx).1 with
    | error e => rw [ha] at hok; exact Except.noConfusion hok
    | ok s0 =>
      rw [ha] at hok
      simp only [Except.ok.injEq, Prod.mk.injEq] at hok
      obtain ⟨hs, -, -⟩ := hok
      rw [← hs]
      exact assembleSample_fields cfg idx _ s0 ha

/-- C3 witness: the concrete grayscale image `[[[3], [4]]]` tiles to
`[[[3,3,3], [4,4,4]]]` with an all-true `is_gray`, and the concrete color
image is returned unchanged with an all-false `is_gray`. -/
theorem c3_grayscale_witness :
    ((∀ row ∈ (isGrayOf imgGray).val, ∀ px ∈ row, px = [true]) ∧
      (imageStep imgGray).2.channels = 3 ∧
      (imageStep imgGray).2.val = [[[3, 3, 3], [4, 4, 4]]]) ∧
    ((∀ row ∈ (isGrayOf imgColor).val, ∀ px ∈ row, px = [false]) ∧
      (imageStep imgColor).2 = imgColor) := by
  have hg := (c3_grayscale imgGray).1 rfl
  have hc := (c3_grayscale imgColor).2.1 rfl
  refine ⟨⟨hg.2.2.2.1, hg.2.2.2.2.1, ?_⟩, hc.1, hc.2⟩
  rw [hg.2.2.2.2.2.1]
  with_unfolding_all decide

end GenData
